import Mathlib

/-!
Verification development for the PGR checklist PDF generator (src/main.py).

The Python source is shallowly embedded below: pure helper functions become
Lean functions, the stateful PDF loop becomes an explicit draw-step list,
external collaborators (Google Cloud Storage, HTTP, Pillow, fpdf string
metrics) become explicit function parameters / oracles.  Machine floats in
the source are modelled with rationals, Python integers with Int/Nat, byte
strings with lists of naturals, and fallible code with Option.
-/

/-! ## String utilities modelling Python str methods

The source relies on str.strip, str.lower, str.split, str.replace and
percent-decoding.  They are modelled here over the character list of a
string so that every definition reduces inside the kernel. -/

/-- Characters Python's str.strip removes (ASCII whitespace model). -/
def isPySpace (c : Char) : Bool :=
  c = ' ' || c = '\t' || c = '\n' || c = '\r' || c = '\x0b' || c = '\x0c'

/-- Model of Python str.strip (both ends, whitespace). -/
def pyStrip (s : String) : String :=
  String.mk (((s.data.dropWhile isPySpace).reverse.dropWhile isPySpace).reverse)

/-- Model of Python str.lower (ASCII case folding). -/
def pyLower (s : String) : String :=
  String.mk (s.data.map Char.toLower)

/-- Model of Python str.replace for single characters (used for replace of a
newline by a space). -/
def replaceChar (a b : Char) (s : String) : String :=
  String.mk (s.data.map (fun c => if c = a then b else c))

/-- Split a character list at every occurrence of a separator character.
Mirrors Python str.split with an explicit one-character separator: empty
pieces are kept, and the empty input yields one empty piece. -/
def splitOnSep (sep : Char) : List Char → List (List Char)
  | [] => [[]]
  | c :: rest =>
    let r := splitOnSep sep rest
    if c = sep then [] :: r
    else
      match r with
      | x :: xs => (c :: x) :: xs
      | [] => [[c]]

/-- Model of Python s.split(sep) for a one-character separator. -/
def splitChar (sep : Char) (s : String) : List String :=
  (splitOnSep sep s.data).map (fun l => String.mk l)

/-- Split a character list at the first occurrence of a pattern, returning
the parts before and after it, or nothing when the pattern is absent. -/
def findSplit (pat : List Char) : List Char → Option (List Char × List Char)
  | [] => if pat == [] then some ([], []) else Option.none
  | c :: rest =>
    if (c :: rest).take pat.length == pat then some ([], (c :: rest).drop pat.length)
    else
      match findSplit pat rest with
      | some (pre, post) => some (c :: pre, post)
      | Option.none => Option.none

/-- Model of Python s.split(sep, 1): the part before the first occurrence of
sep and the rest, or nothing when sep does not occur (Python then returns a
one-element list, which callers detect via the length test). -/
def splitOnceStr (sep s : String) : Option (String × String) :=
  match findSplit sep.data s.data with
  | some (pre, post) => some (String.mk pre, String.mk post)
  | Option.none => Option.none

/-- Model of Python s.split(sep)[0] for a multi-character separator: the part
before the first occurrence, or the whole string when absent. -/
def firstBefore (sep s : String) : String :=
  match findSplit sep.data s.data with
  | some (pre, _) => String.mk pre
  | Option.none => s

/-- Model of Python s.endswith(t). -/
def strEndsWith (s t : String) : Bool :=
  s.data.reverse.take t.data.length == t.data.reverse

/-- Model of Python s.lstrip for the slash character. -/
def lstripSlash (s : String) : String :=
  String.mk (s.data.dropWhile (fun c => c = '/'))

/-- Hex digit value of a character, if any (for percent-decoding). -/
def hexVal (c : Char) : Option Nat :=
  if '0' ≤ c ∧ c ≤ '9' then some (c.toNat - '0'.toNat)
  else if 'a' ≤ c ∧ c ≤ 'f' then some (c.toNat - 'a'.toNat + 10)
  else if 'A' ≤ c ∧ c ≤ 'F' then some (c.toNat - 'A'.toNat + 10)
  else Option.none

/-- Percent-decoding over characters.  Models urllib.parse.unquote for
ASCII data: a percent sign followed by two hex digits becomes the encoded
character, anything else is kept verbatim. -/
def unquoteChars : List Char → List Char
  | [] => []
  | '%' :: a :: b :: rest =>
    match hexVal a, hexVal b with
    | some ha, some hb => Char.ofNat (16 * ha + hb) :: unquoteChars rest
    | _, _ => '%' :: unquoteChars (a :: b :: rest)
  | c :: rest => c :: unquoteChars rest

/-- Model of urllib.parse.unquote (ASCII fragment). -/
def unquote (s : String) : String :=
  String.mk (unquoteChars s.data)

/-- Python falsy-or chaining for optional strings: `opt or default` where a
missing value and the empty string are both falsy. -/
def orFalsy (o : Option String) (d : String) : String :=
  match o with
  | some s => if s = "" then d else s
  | Option.none => d

/-! ## Python value model (for `to_conforme` and the conformity filters)

`to_conforme` in generate_pdf dispatches on the Python runtime type of the
raw value.  PyVal reifies the relevant variants.  Note that in Python a
bool is an instance of int, so the `isinstance(v, int)` branch of
to_conforme already catches booleans and returns them unchanged; the later
explicit bool branch is unreachable.  Comparison against the literals 1 and
0 (the filters building ok_items/nok_items) follows Python numeric
equality, under which True == 1 and False == 0. -/

inductive PyVal where
  | int (n : Int)
  | bool (b : Bool)
  | str (s : String)
  | pynone
  | other
deriving DecidableEq

/-- Python equality between a value and an integer literal (True == 1,
False == 0, strings and None never equal an int). -/
def pyEqInt : PyVal → Int → Bool
  | .int n, m => n == m
  | .bool b, m => (if b then (1 : Int) else 0) == m
  | _, _ => false

/-- The fixed affirmative set of generate_pdf's to_conforme. -/
def affirmativeSet : List String :=
  ["ok", "conforme", "aprovado", "positivo"]

/-- Embedding of `to_conforme` (src/main.py, lines 327-335).  The first
Python branch is `isinstance(v, int)` and bools are ints in Python, so a
boolean is returned unchanged by that branch; the dedicated bool branch in
the source is dead code. -/
def to_conforme : PyVal → PyVal
  | .int n => .int n
  | .bool b => .bool b
  | .str s => .int (if affirmativeSet.contains (pyLower (pyStrip s)) then 1 else 0)
  | _ => .int 0

/-- A checklist item as consumed by generate_pdf.  `conforme`/`situation`
are `Option.none` when the dictionary key is absent; `PyVal.pynone` models a
key that is present with value None.  The image list element type is left
abstract: only its length matters to the layout and summary code. -/
structure Item (α : Type) where
  conforme : Option PyVal
  situation : Option PyVal
  imagens : List α
  item : Option String
  label : Option String
  problema_identificado : Option String
deriving DecidableEq

/-- Embedding of the normalization loop body (src/main.py, lines 337-339):
`if 'conforme' not in it and 'situation' in it: it['conforme'] =
to_conforme(it.get('situation'))`. -/
def normalizeItem {α : Type} (it : Item α) : Item α :=
  match it.conforme, it.situation with
  | Option.none, some sv => { it with conforme := some (to_conforme sv) }
  | _, _ => it

/-- The item list after the in-place normalization loop. -/
def processItems {α : Type} (items : List (Item α)) : List (Item α) :=
  items.map normalizeItem

/-- The filter predicate `item.get('conforme') == k`: a missing key yields
Python None, which never equals an int. -/
def conformeIs {α : Type} (k : Int) (it : Item α) : Bool :=
  match it.conforme with
  | some v => pyEqInt v k
  | Option.none => false

/-- Embedding of `ok_items = [item for item in items if item.get('conforme') == 1]`. -/
def ok_items {α : Type} (items : List (Item α)) : List (Item α) :=
  items.filter (conformeIs 1)

/-- Embedding of `nok_items = [item for item in items if item.get('conforme') == 0]`. -/
def nok_items {α : Type} (items : List (Item α)) : List (Item α) :=
  items.filter (conformeIs 0)

/-- The summary record `complemento_checklist` of generate_pdf. -/
structure Summary where
  perguntas_ok : Nat
  perguntas_nok : Nat
  fotos_ok : Nat
  fotos_nok : Nat
deriving DecidableEq

/-- Embedding of the `complemento_checklist` construction
(src/main.py, lines 344-350). -/
def complemento_checklist {α : Type} (items : List (Item α)) : Summary :=
  let oks := ok_items items
  let noks := nok_items items
  { perguntas_ok := oks.length
    perguntas_nok := noks.length
    fotos_ok := (oks.map (fun it => it.imagens.length)).sum
    fotos_nok := (noks.map (fun it => it.imagens.length)).sum }

/-- Convenience constructor for concrete items (image payload Unit). -/
def mkItem (conforme situation : Option PyVal) (nimg : Nat)
    (rot prob : Option String) : Item Unit :=
  { conforme := conforme
    situation := situation
    imagens := List.replicate nimg ()
    item := rot
    label := Option.none
    problema_identificado := prob }

/-! ## Text line counting (src/main.py, `_get_text_line_count`, lines 271-296)

The fpdf string-width measurement `pdf.get_string_width` is an external
font-metric oracle; it is modelled as an arbitrary rational-valued function
`sw` on strings. -/

/-- One iteration of the inner word loop of `_get_text_line_count`.  The
state is (current_line, line_count_for_segment). -/
def wordStep (sw : String → ℚ) (width : ℚ) (st : String × Nat) (word : String) :
    String × Nat :=
  if sw word > width then
    (if st.1 = "" then ("", st.2) else ("", st.2 + 1))
  else
    let test := if st.1 = "" then word else st.1 ++ " " ++ word
    if sw test ≤ width then (test, st.2) else (word, st.2 + 1)

/-- The per-line segment count: the inner loop of `_get_text_line_count`
run over the words of one line, starting from current_line = "" and
line_count_for_segment = 1. -/
def lineCountFold (sw : String → ℚ) (width : ℚ) (words : List String) : Nat :=
  (words.foldl (wordStep sw width) ("", 1)).2

/-- Embedding of `_get_text_line_count`: empty text counts 1; otherwise the
text is split on newlines, an empty line counts 1, and a nonempty line
counts its greedy segment count. -/
def get_text_line_count (sw : String → ℚ) (text : String) (width : ℚ) : Nat :=
  if text = "" then 1
  else
    ((splitChar '\n' text).map (fun line =>
      if line = "" then 1 else lineCountFold sw width (splitChar ' ' line))).sum

/-- Modelled from the spec: one step of a greedy word-wrap.  Wrapping packs
words greedily into the current line, starting a new line when appending
the next word (with a separating space) would exceed the available width,
measured by the same string-width oracle. -/
def packStep (sw : String → ℚ) (width : ℚ) (acc : List String × String)
    (word : String) : List String × String :=
  let test := acc.2 ++ " " ++ word
  if sw test ≤ width then (acc.1, test) else (acc.1 ++ [acc.2], word)

/-- Modelled from the spec (continued): the wrapped lines themselves — the
completed lines followed by the line under construction. -/
def greedyWrapLines (sw : String → ℚ) (width : ℚ) : List String → List String
  | [] => []
  | w :: ws =>
    let st := ws.foldl (packStep sw width) ([], w)
    st.1 ++ [st.2]

/-! ## Per-item block layout (src/main.py, generate_pdf item loop, lines 430-453) -/

/-- Embedding of `rotulo = item.get('item') or item.get('label') or ''`. -/
def rotulo {α : Type} (it : Item α) : String :=
  orFalsy it.item (orFalsy it.label "")

/-- Embedding of `problema = (item.get('problema_identificado', '') or
'Nenhum').strip().replace("\n", " ")`. -/
def problemaText {α : Type} (it : Item α) : String :=
  replaceChar '\n' ' ' (pyStrip (orFalsy it.problema_identificado "Nenhum"))

/-- The item title line `f"Item: {rotulo}"`. -/
def item_title_line {α : Type} (it : Item α) : String :=
  "Item: " ++ rotulo it

/-- The problem line `f"Problema(s): {problema}"`. -/
def problema_line {α : Type} (it : Item α) : String :=
  "Problema(s): " ++ problemaText it

/-- Embedding of the predicted block height of one checklist item
(src/main.py, lines 442-450):
text_height = (lines_item + lines_prob + 1) * 5,
image_rows = (len(imagens) + 2) // 3,
images_height = image_rows * (img_height + img_margin) with
img_height = 35 and img_margin = 5, block = text + images + 15. -/
def blockHeight (sw : String → ℚ) (aw : ℚ) {α : Type} (it : Item α) : Nat :=
  let lines_item := get_text_line_count sw (item_title_line it) aw
  let lines_prob := get_text_line_count sw (problema_line it) aw
  let text_height := (lines_item + lines_prob + 1) * 5
  let image_rows := (it.imagens.length + 2) / 3
  let images_height := image_rows * (35 + 5)
  text_height + images_height + 15

/-- Abstract draw operations emitted for one checklist item.  The page
break is the explicit `pdf.add_page()` of the item loop; the remaining
constructors stand for the drawing calls that follow it. -/
inductive DrawStep where
  | pageBreak
  | drawTitle (s : String)
  | drawStatus (conforme : Option PyVal)
  | drawProblem (s : String)
  | drawImages (n : Nat)
deriving DecidableEq

/-- The drawing operations of one item, in source order: title multi_cell,
status badge row, problem multi_cell, image grid. -/
def itemDrawSteps {α : Type} (it : Item α) : List DrawStep :=
  [DrawStep.drawTitle (item_title_line it),
   DrawStep.drawStatus it.conforme,
   DrawStep.drawProblem (problema_line it),
   DrawStep.drawImages it.imagens.length]

/-- Embedding of the item loop body's page-break decision (src/main.py,
lines 452-453): `if pdf.get_y() + block_height > pdf.page_break_trigger:
pdf.add_page()`, followed by the item's draw calls. -/
def itemSteps (sw : String → ℚ) (aw trigger y : ℚ) {α : Type} (it : Item α) :
    List DrawStep :=
  (if y + (blockHeight sw aw it : ℚ) > trigger then [DrawStep.pageBreak] else [])
    ++ itemDrawSteps it

/-- Concrete per-character width table used for counterexamples: a few
letters are wide, everything else has width zero.  (Integer-valued so that
concrete instances reduce inside the kernel; the cast to the rational
measurement type happens in swEx.) -/
def charWidthEx (c : Char) : Int :=
  if c = 'j' then 4
  else if c = 'k' then 4
  else if c = 'z' then 4
  else if c = 'X' then 7
  else if c = ' ' then 3
  else 0

/-- Concrete additive string-width oracle built from charWidthEx. -/
def swEx (s : String) : ℚ :=
  (((s.data.map charWidthEx).sum : Int) : ℚ)

/-! ## Storage URL classification (src/main.py, `_parse_gcs_url`, lines 162-192) -/

/-- The fields of urllib.parse.urlparse used by `_parse_gcs_url`. -/
structure UrlParts where
  scheme : String
  netloc : String
  path : String
deriving DecidableEq

/-- Model of urllib.parse.urlparse restricted to URLs without query,
fragment or user-info: the scheme is the part before "://", the netloc
runs to the next slash, and the path is the remainder (including its
leading slash).  A string without "://" is all path. -/
def urlparse (url : String) : UrlParts :=
  match splitOnceStr "://" url with
  | some (sch, rest) =>
    match splitOnceStr "/" rest with
    | some (nl, after) => { scheme := sch, netloc := nl, path := "/" ++ after }
    | Option.none => { scheme := sch, netloc := rest, path := "" }
  | Option.none => { scheme := "", netloc := "", path := url }

/-- Embedding of `_parse_gcs_url` (src/main.py, lines 162-192).  The flag
argument models self.use_gcs_for_storage_urls.  Each branch mirrors the
source: the gs branch and the flat-path https branch strip leading slashes
from the parsed path, split it once on "/", reject a split that does not
produce two parts, and percent-decode the object part; the virtual-hosted
branch takes the bucket from the host and the whole path as object. -/
def parse_gcs_url (use_gcs_for_storage_urls : Bool) (url : String) :
    Option (String × String) :=
  if !use_gcs_for_storage_urls then Option.none
  else
    let parsed := urlparse url
    let host := parsed.netloc
    let path := parsed.path
    if parsed.scheme = "gs" then
      match splitOnceStr "/" (lstripSlash path) with
      | Option.none => Option.none
      | some (_, second) => some (parsed.netloc, unquote second)
    else if host = "storage.googleapis.com" ∨ host = "storage.cloud.google.com" then
      match splitOnceStr "/" (lstripSlash path) with
      | Option.none => Option.none
      | some (bucket, object_path) => some (bucket, unquote object_path)
    else if strEndsWith host ".storage.googleapis.com" then
      let bucket := firstBefore ".storage.googleapis.com" host
      let object_path := lstripSlash path
      if object_path = "" then Option.none else some (bucket, unquote object_path)
    else Option.none

/-! ## Image fetching (src/main.py, lines 136-269)

Byte strings are lists of naturals.  The GCS blob store and the image
decoder are external collaborators, modelled as function parameters:
`ex` answers blob.exists(), `dl` models download_as_bytes (Option.none is a
raised exception), `decodesAsImage` models a successful Image.open. -/

abbrev Bytes := List Nat

/-- Embedding of the host allow-list test of `_download_single_url`
(src/main.py, lines 226-230): when the URL has a hostname, it must equal an
allowed host or end with "." followed by one; a URL without hostname is not
checked. -/
def hostAllowed (allowed : List String) (hostname : Option String) : Bool :=
  match hostname with
  | some h => allowed.any (fun a => h == a || strEndsWith h ("." ++ a))
  | Option.none => true

/-- The streaming read loop of `_download_single_url` (src/main.py, lines
233-243): skip empty chunks, accumulate the total size, abort (None) as
soon as the total exceeds the cap, otherwise append the chunk to the
buffer. -/
def readChunks (maxBytes : Nat) : Nat → Bytes → List Bytes → Option Bytes
  | _, buf, [] => some buf
  | total, buf, c :: cs =>
    if c = [] then readChunks maxBytes total buf cs
    else
      let total2 := total + c.length
      if total2 > maxBytes then Option.none
      else readChunks maxBytes total2 (buf ++ c) cs

/-- Embedding of `_download_single_url` (src/main.py, lines 223-254).
`hostname` is the parsed hostname of the URL, `statusOk` models
`raise_for_status()` not raising, `chunks` the streamed body, and
`decodesAsImage` the Pillow validation `Image.open`. -/
def download_single_url (allowed : List String) (maxBytes : Nat)
    (decodesAsImage : Bytes → Bool) (hostname : Option String)
    (statusOk : Bool) (chunks : List Bytes) : Option Bytes :=
  if !hostAllowed allowed hostname then Option.none
  else if !statusOk then Option.none
  else
    match readChunks maxBytes 0 [] chunks with
    | Option.none => Option.none
    | some data => if decodesAsImage data then some data else Option.none

/-- The default byte cap: int(os.getenv('MAX_IMAGE_BYTES', '10485760')). -/
def max_image_bytes_default : Nat := 10485760

/-- Per-path fetch of download_images_batch's inner loop: download when the
blob exists (None on a download error), None when it does not exist. -/
def fetchPath (ex : String → Bool) (dl : String → Option Bytes) (p : String) :
    Option Bytes :=
  if ex p then dl p else Option.none

/-- Chunking worker, structurally recursive on a fuel bound so that it
reduces inside the kernel: each step slices off the first n elements.  With
fuel at least the list length and positive n this computes the chunk list. -/
def chunksOfAux (n : Nat) : Nat → List α → List (List α)
  | _, [] => []
  | 0, _ :: _ => []
  | fuel + 1, x :: xs =>
    if n = 0 then []
    else (x :: xs).take n :: chunksOfAux n fuel ((x :: xs).drop n)

/-- Chunking of a list at a fixed positive size (the batch_size = 100
slicing `image_paths[chunk_start:chunk_start + batch_size]`). -/
def chunksOf (n : Nat) (l : List α) : List (List α) :=
  chunksOfAux n l.length l

/-- Embedding of `download_images_batch` (src/main.py, lines 136-160): the
paths are processed in chunks of 100, and the result for global index
chunk_start + i is the fetch of the i-th path of the chunk, i.e. the
concatenation of the per-chunk results. -/
def download_images_batch (ex : String → Bool) (dl : String → Option Bytes)
    (paths : List String) : List (Option Bytes) :=
  ((chunksOf 100 paths).map (fun chunk => chunk.map (fetchPath ex dl))).flatten

/-- Per-target fetch of download_gcs_targets_batch's inner loop. -/
def fetchTarget (ex : String → String → Bool) (dl : String → String → Option Bytes)
    (t : String × String) : Option Bytes :=
  if ex t.1 t.2 then dl t.1 t.2 else Option.none

/-- Python dict semantics of `by_bucket.setdefault(bucket_name, []).append(v)`:
append to the bucket's entry when present, else add a new entry at the end
(insertion order). -/
def setdefaultAppend (m : List (String × List (Nat × String))) (b : String)
    (v : Nat × String) : List (String × List (Nat × String)) :=
  if m.any (fun g => g.1 == b) then
    m.map (fun g => if g.1 == b then (g.1, g.2 ++ [v]) else g)
  else m ++ [(b, [v])]

/-- The grouping loop `for idx, (bucket_name, object_path) in
enumerate(targets)` with a running index. -/
def groupAux (idx : Nat) (m : List (String × List (Nat × String))) :
    List (String × String) → List (String × List (Nat × String))
  | [] => m
  | t :: ts => groupAux (idx + 1) (setdefaultAppend m t.1 (idx, t.2)) ts

/-- by_bucket of download_gcs_targets_batch. -/
def groupByBucket (targets : List (String × String)) :
    List (String × List (Nat × String)) :=
  groupAux 0 [] targets

/-- Embedding of `download_gcs_targets_batch` (src/main.py, lines 194-221):
results start as [None] * len(targets); the targets are grouped by bucket
(insertion order) and each group's items write their fetch result into the
slot of their original index. -/
def download_gcs_targets_batch (ex : String → String → Bool)
    (dl : String → String → Option Bytes) (targets : List (String × String)) :
    List (Option Bytes) :=
  if targets.isEmpty then List.replicate targets.length Option.none
  else
    (groupByBucket targets).foldl
      (fun res g =>
        g.2.foldl (fun r io => r.set io.1 (fetchTarget ex dl (g.1, io.2))) res)
      (List.replicate targets.length Option.none)

/-- Embedding of `download_urls_batch` (src/main.py, lines 256-269).  The
thread pool submits one `_download_single_url` task per URL and
future_to_idx writes each task's result (None on an exception, which `dl`
already models) into the slot of its own index, so the collected result is
the index-wise image of the input list. -/
def download_urls_batch (dl : String → Option Bytes) (urls : List String) :
    List (Option Bytes) :=
  urls.map dl

/-! ## Annotator (src/main.py, `_color_tuple` and `_apply_annotations`, lines 42-96) -/

/-- Embedding of `_color_tuple`: a fixed named palette with red as the
default for unrecognized names. -/
def color_tuple (color : String) : Nat × Nat × Nat :=
  let m := pyLower (pyStrip color)
  if m = "red" then (255, 0, 0)
  else if m = "green" then (0, 200, 0)
  else if m = "blue" then (0, 0, 255)
  else if m = "yellow" then (255, 200, 0)
  else if m = "orange" then (255, 140, 0)
  else if m = "purple" then (160, 32, 240)
  else if m = "white" then (255, 255, 255)
  else if m = "black" then (0, 0, 0)
  else (255, 0, 0)

/-- Drawing primitives issued on the decoded image (ImageDraw calls), with
the bounding box corners, the resolved color and the stroke width. -/
inductive DrawOp where
  | rectOutline (x1 y1 x2 y2 : ℚ) (color : Nat × Nat × Nat) (lineW : Nat)
  | ellipseOutline (x1 y1 x2 y2 : ℚ) (color : Nat × Nat × Nat) (lineW : Nat)
  | ellipseFilled (x1 y1 x2 y2 : ℚ) (color : Nat × Nat × Nat) (lineW : Nat)
deriving DecidableEq

/-- The radius of a point/dot drawing: `r = max(3.0, min(8.0, w or 5.0))`
(src/main.py, line 85).  Python's `w or 5.0` substitutes the default 5.0
when w is the falsy float 0.0. -/
def pointRadius (w : ℚ) : ℚ :=
  max 3 (min 8 (if w = 0 then 5 else w))

/-- The draw dispatch of `_apply_annotations` (src/main.py, lines 80-88) on
an already normalized kind string and numeric coordinates. -/
def drawAnn (kind : String) (x y w h : ℚ) (color : Nat × Nat × Nat) : DrawOp :=
  if kind = "box" ∨ kind = "rectangle" ∨ kind = "rect" then
    DrawOp.rectOutline x y (x + w) (y + h) color 3
  else if kind = "circle" ∨ kind = "ellipse" then
    DrawOp.ellipseOutline x y (x + w) (y + h) color 3
  else if kind = "point" ∨ kind = "dot" then
    let r := pointRadius w
    DrawOp.ellipseFilled (x - r) (y - r) (x + r) (y + r) color 1
  else DrawOp.rectOutline x y (x + w) (y + h) color 3

/-- The numeric coordinate record; a missing key defaults to 0 via
`coords.get('x', 0)`. -/
structure Coords where
  x : Option ℚ
  y : Option ℚ
  w : Option ℚ
  h : Option ℚ
deriving DecidableEq

/-- The raw 'coordinates' field: a dict, a JSON string (carried together
with its json.loads outcome, where Option.none stands for a parse failure
or a non-dict result, which raises inside the per-record try), or any
other value (Python then keeps coords = {}). -/
inductive CoordsRaw where
  | dict (c : Coords)
  | jsonStr (parsed : Option Coords)
  | otherVal
deriving DecidableEq

/-- One overlay record.  annTypeA/annTypeB model the 'annotationType' and
'type' keys; a missing description is Option.none. -/
structure Ann where
  annTypeA : Option String
  annTypeB : Option String
  coordsRaw : CoordsRaw
  color : Option String
  description : Option String
deriving DecidableEq

/-- Embedding of `(ann.get('annotationType') or ann.get('type') or
'box').strip().lower()`. -/
def annKind (a : Ann) : String :=
  pyLower (pyStrip (orFalsy a.annTypeA (orFalsy a.annTypeB "box")))

/-- The coords extraction (src/main.py, lines 69-74): a dict is used as is,
a JSON string must parse, anything else leaves the empty record. -/
def annCoords (a : Ann) : Option Coords :=
  match a.coordsRaw with
  | CoordsRaw.dict c => some c
  | CoordsRaw.jsonStr p => p
  | CoordsRaw.otherVal =>
    some { x := Option.none, y := Option.none, w := Option.none, h := Option.none }

/-- The draw operation of one overlay record, or Option.none when its
coordinate extraction raises (the record is then skipped). -/
def annOp (a : Ann) : Option DrawOp :=
  match annCoords a with
  | Option.none => Option.none
  | some c =>
    some (drawAnn (annKind a) (c.x.getD 0) (c.y.getD 0) (c.w.getD 0) (c.h.getD 0)
      (color_tuple (orFalsy a.color "red")))

/-- The external image codec of the Annotator: decoding (None = not an
image), RGB conversion, executing one drawing primitive (None = the draw
call raised), and JPEG re-encoding at quality 85 (None = save raised). -/
structure ImgOps (Img : Type) where
  decode : Bytes → Option Img
  toRGB : Img → Img
  draw : Img → DrawOp → Option Img
  encodeJPEG85 : Img → Option Bytes

/-- One iteration of the per-record loop of `_apply_annotations` with its
inner try/except: a coordinate failure or a draw failure is logged and
skipped, leaving the image as it was. -/
def applyAnn {Img : Type} (ops : ImgOps Img) (img : Img) (a : Ann) : Img :=
  match annOp a with
  | Option.none => img
  | some op =>
    match ops.draw img op with
    | some img2 => img2
    | Option.none => img

/-- Embedding of `_apply_annotations` (src/main.py, lines 56-96): decode,
convert to RGB, draw each record in order (failures skipped), re-encode as
JPEG; the outer try/except returns the input bytes unchanged when decoding
or re-encoding fails. -/
def apply_anns {Img : Type} (ops : ImgOps Img) (image_data : Bytes)
    (anns : List Ann) : Bytes :=
  match ops.decode image_data with
  | Option.none => image_data
  | some img0 =>
    let img := anns.foldl (applyAnn ops) (ops.toRGB img0)
    match ops.encodeJPEG85 img with
    | some out => out
    | Option.none => image_data

/-- A tiny concrete image codec over Nat images, for closed instances of
the Annotator theorems: only the byte string [1] decodes, every draw
succeeds by bumping the image, encoding wraps the image in a singleton. -/
def opsW : ImgOps Nat :=
  { decode := fun d => if d == [1] then some 0 else Option.none
    toRGB := fun i => i
    draw := fun i _ => some (i + 1)
    encodeJPEG85 := fun i => some [i] }

/-! ## Helper lemmas -/

/-- No Python value is numerically equal to both 1 and 0. -/
theorem pyEqInt_not_one_and_zero (v : PyVal) :
    ¬(pyEqInt v 1 = true ∧ pyEqInt v 0 = true) := by
  cases v with
  | int n =>
    intro h
    simp only [pyEqInt, beq_iff_eq] at h
    omega
  | bool b => cases b <;> simp [pyEqInt]
  | str s => simp [pyEqInt]
  | pynone => simp [pyEqInt]
  | other => simp [pyEqInt]

/-- Partitioning a list by two predicates that are exhaustive and mutually
exclusive on its elements splits both its length and any elementwise sum. -/
theorem filter_partition {α : Type} (p q : α → Bool) (f : α → Nat) :
    ∀ (l : List α), (∀ x ∈ l, p x = true ∨ q x = true) →
      (∀ x ∈ l, ¬(p x = true ∧ q x = true)) →
      (l.filter p).length + (l.filter q).length = l.length
        ∧ ((l.filter p).map f).sum + ((l.filter q).map f).sum = (l.map f).sum := by
  intro l
  induction l with
  | nil => intro _ _; simp
  | cons a t ih =>
    intro h1 h2
    have ht := ih (fun x hx => h1 x (List.mem_cons_of_mem a hx))
      (fun x hx => h2 x (List.mem_cons_of_mem a hx))
    have ha1 := h1 a (List.mem_cons_self a t)
    have ha2 := h2 a (List.mem_cons_self a t)
    rcases ha1 with hp | hq
    · have hqf : q a = false := by
        cases hqa : q a with
        | false => rfl
        | true => exact absurd ⟨hp, hqa⟩ ha2
      simp only [List.filter_cons, hp, hqf, if_true, if_false, Bool.false_eq_true,
        List.length_cons, List.map_cons, List.sum_cons]
      omega
    · have hpf : p a = false := by
        cases hpa : p a with
        | false => rfl
        | true => exact absurd ⟨hpa, hq⟩ ha2
      simp only [List.filter_cons, hq, hpf, if_true, if_false, Bool.false_eq_true,
        List.length_cons, List.map_cons, List.sum_cons]
      omega

/-! ## Claim theorems -/

/-- C1 (code bug evaluation): the resource locator rejects the well-formed
`gs://bucket/obj%20x` (returning "not a storage URL") although its own
comment and the spec promise ("bucket", "obj x"); for a multi-segment gs
object path it silently drops the first segment.  The flat-path https form
works as specified, and a URL without an object segment is rejected. -/
theorem C1_gs_url_eval :
    parse_gcs_url true ("gs://bucket/obj%20x") = Option.none
      ∧ parse_gcs_url true ("gs://bucket/a/b") = some (("bucket"), ("b"))
      ∧ parse_gcs_url true ("https://storage.googleapis.com/bucket/obj%20x")
          = some (("bucket"), ("obj x"))
      ∧ parse_gcs_url true ("https://storage.googleapis.com/bucket") = Option.none
      ∧ parse_gcs_url true ("https://bucket.storage.googleapis.com/obj%20x")
          = some (("bucket"), ("obj x")) := by
  refine ⟨?_, ?_, ?_, ?_, ?_⟩ <;> decide

/-- C2 (counterexample): an item whose explicit conforme value is the
integer 2 is counted in neither partition, so the question counts do not
add up to the item total. -/
theorem C2_counterexample :
    (complemento_checklist (processItems
        [mkItem (some (PyVal.int 2)) Option.none 0 Option.none Option.none])).perguntas_ok
      + (complemento_checklist (processItems
        [mkItem (some (PyVal.int 2)) Option.none 0 Option.none Option.none])).perguntas_nok
      ≠ ([mkItem (some (PyVal.int 2)) Option.none 0 Option.none Option.none]).length := by
  decide

/-- C2 (amended): provided every processed item's conforme value is
Python-equal to 1 or to 0, the summary counts partition the items —
questions ok + nok equal the item total, the photo totals are the sums of
len(imagens) over each partition, and together they account for every
photo. -/
theorem C2_summary_partition {α : Type} (items : List (Item α))
    (hbin : ∀ it ∈ processItems items,
      (conformeIs 1 it || conformeIs 0 it) = true) :
    (complemento_checklist (processItems items)).perguntas_ok
        + (complemento_checklist (processItems items)).perguntas_nok
      = items.length
    ∧ (complemento_checklist (processItems items)).fotos_ok
        = ((ok_items (processItems items)).map (fun it => it.imagens.length)).sum
    ∧ (complemento_checklist (processItems items)).fotos_nok
        = ((nok_items (processItems items)).map (fun it => it.imagens.length)).sum
    ∧ (complemento_checklist (processItems items)).fotos_ok
        + (complemento_checklist (processItems items)).fotos_nok
      = ((processItems items).map (fun it => it.imagens.length)).sum := by
  have h1 : ∀ it ∈ processItems items,
      conformeIs 1 it = true ∨ conformeIs 0 it = true := by
    intro it hit
    have := hbin it hit
    rcases Bool.or_eq_true_iff.mp this with h | h
    · exact Or.inl h
    · exact Or.inr h
  have h2 : ∀ it ∈ processItems items,
      ¬(conformeIs 1 it = true ∧ conformeIs 0 it = true) := by
    intro it _ hc
    rcases hc with ⟨ha, hb⟩
    cases hcf : it.conforme with
    | none => simp [conformeIs, hcf] at ha
    | some v =>
      simp only [conformeIs, hcf] at ha hb
      exact pyEqInt_not_one_and_zero v ⟨ha, hb⟩
  have hpart := filter_partition (conformeIs 1) (conformeIs 0)
    (fun it => it.imagens.length) (processItems items) h1 h2
  have hlen : (processItems items).length = items.length := List.length_map _ _
  refine ⟨?_, rfl, rfl, ?_⟩
  · show (ok_items (processItems items)).length
        + (nok_items (processItems items)).length = items.length
    rw [← hlen]
    exact hpart.1
  · exact hpart.2

/-- C2 (witness): a two-item report, one explicitly conforming with two
photos and one whose situation string is not affirmative with three
photos, partitions as claimed. -/
theorem C2_summary_partition_witness :
    (complemento_checklist (processItems
        [mkItem (some (PyVal.int 1)) Option.none 2 Option.none Option.none,
         mkItem Option.none (some (PyVal.str ("nope"))) 3 Option.none Option.none])).perguntas_ok
      + (complemento_checklist (processItems
        [mkItem (some (PyVal.int 1)) Option.none 2 Option.none Option.none,
         mkItem Option.none (some (PyVal.str ("nope"))) 3 Option.none Option.none])).perguntas_nok
      = ([mkItem (some (PyVal.int 1)) Option.none 2 Option.none Option.none,
          mkItem Option.none (some (PyVal.str ("nope"))) 3 Option.none Option.none]).length :=
  (C2_summary_partition _ (by decide)).1

/-- C3: to_conforme is total and pure — an integer passes through, a
boolean is numerically 1 (true) or 0 (false) after mapping (in Python the
isinstance int branch returns the boolean itself, which equals 1/0), a
string maps to 1 exactly when its trimmed lower-cased form is in the fixed
affirmative set and to 0 otherwise, any other value maps to 0 — and the
normalization loop applies it only when conforme is absent and situation
present, never overwriting an explicit value. -/
theorem C3_to_conforme_total :
    (∀ n : Int, to_conforme (PyVal.int n) = PyVal.int n)
    ∧ (pyEqInt (to_conforme (PyVal.bool true)) 1 = true
        ∧ pyEqInt (to_conforme (PyVal.bool false)) 0 = true)
    ∧ (∀ s : String,
        to_conforme (PyVal.str s)
          = PyVal.int (if affirmativeSet.contains (pyLower (pyStrip s)) then 1 else 0))
    ∧ (to_conforme PyVal.pynone = PyVal.int 0 ∧ to_conforme PyVal.other = PyVal.int 0)
    ∧ (∀ (it : Item Unit) (v : PyVal), it.conforme = some v → normalizeItem it = it)
    ∧ (∀ it : Item Unit, it.situation = Option.none → normalizeItem it = it)
    ∧ (∀ (it : Item Unit) (sv : PyVal),
        it.conforme = Option.none → it.situation = some sv →
          (normalizeItem it).conforme = some (to_conforme sv)
          ∧ (normalizeItem it).situation = it.situation
          ∧ (normalizeItem it).imagens = it.imagens
          ∧ (normalizeItem it).item = it.item
          ∧ (normalizeItem it).label = it.label
          ∧ (normalizeItem it).problema_identificado = it.problema_identificado) := by
  refine ⟨fun n => rfl, ⟨rfl, rfl⟩, fun s => rfl, ⟨rfl, rfl⟩, ?_, ?_, ?_⟩
  · intro it v hv
    unfold normalizeItem
    rw [hv]
  · intro it hs
    unfold normalizeItem
    rw [hs]
    cases it.conforme <;> rfl
  · intro it sv hc hs
    unfold normalizeItem
    rw [hc, hs]
    exact ⟨rfl, rfl, rfl, rfl, rfl, rfl⟩

/-- C3 (witness): an item with an explicit conforme value 7 is untouched
by normalization, and an item with only the situation string "Conforme "
receives the derived conforme 1. -/
theorem C3_to_conforme_total_witness :
    normalizeItem (mkItem (some (PyVal.int 7)) (some (PyVal.str ("ok"))) 0
        Option.none Option.none)
      = mkItem (some (PyVal.int 7)) (some (PyVal.str ("ok"))) 0 Option.none Option.none
    ∧ (normalizeItem (mkItem Option.none (some (PyVal.str ("Conforme "))) 2
        Option.none Option.none)).conforme
      = some (to_conforme (PyVal.str ("Conforme "))) :=
  ⟨C3_to_conforme_total.2.2.2.2.1 _ (PyVal.int 7) rfl,
   (C3_to_conforme_total.2.2.2.2.2.2 _ (PyVal.str ("Conforme ")) rfl rfl).1⟩

/-- Gluing two words with a separating space never yields the empty string. -/
theorem glue_ne_empty (a b : String) : a ++ " " ++ b ≠ "" := by
  intro h
  have hd := congrArg String.data h
  simp only [String.data_append] at hd
  simp at hd

/-- The counting loop of `_get_text_line_count` and the greedy word-wrap
walk in lockstep as long as every word is nonempty and fits the width: the
current line strings coincide, the counter exceeds the number of completed
wrapped lines by one, and the current line stays nonempty. -/
theorem pack_loop_invariant (sw : String → ℚ) (width : ℚ) :
    ∀ (ws : List String) (done : List String) (cur : String) (cnt : Nat),
      cur ≠ "" → cnt = done.length + 1 →
      (∀ w ∈ ws, w ≠ "" ∧ sw w ≤ width) →
      (ws.foldl (wordStep sw width) (cur, cnt)).1
          = (ws.foldl (packStep sw width) (done, cur)).2
        ∧ (ws.foldl (wordStep sw width) (cur, cnt)).2
          = (ws.foldl (packStep sw width) (done, cur)).1.length + 1
        ∧ (ws.foldl (wordStep sw width) (cur, cnt)).1 ≠ "" := by
  intro ws
  induction ws with
  | nil =>
    intro done cur cnt hcur hcnt _
    exact ⟨rfl, hcnt, hcur⟩
  | cons w ws ih =>
    intro done cur cnt hcur hcnt hall
    have hw := hall w (List.mem_cons_self w ws)
    have hall2 : ∀ x ∈ ws, x ≠ "" ∧ sw x ≤ width :=
      fun x hx => hall x (List.mem_cons_of_mem w hx)
    have hnot : ¬ sw w > width := not_lt.mpr hw.2
    simp only [List.foldl_cons]
    by_cases htest : sw (cur ++ " " ++ w) ≤ width
    · have e1 : wordStep sw width (cur, cnt) w = (cur ++ " " ++ w, cnt) := by
        simp [wordStep, hnot, hcur, htest]
      have e2 : packStep sw width (done, cur) w = (done, cur ++ " " ++ w) := by
        simp [packStep, htest]
      rw [e1, e2]
      exact ih done (cur ++ " " ++ w) cnt (glue_ne_empty cur w) hcnt hall2
    · have e1 : wordStep sw width (cur, cnt) w = (w, cnt + 1) := by
        simp [wordStep, hnot, hcur, htest]
      have e2 : packStep sw width (done, cur) w = (done ++ [cur], w) := by
        simp [packStep, htest]
      rw [e1, e2]
      refine ih (done ++ [cur]) w (cnt + 1) hw.1 ?_ hall2
      simp [List.length_append, hcnt]

/-- C4: the line-count predictor returns 1 for empty text; it splits on
explicit newlines and sums per-line counts, an empty line counting 1; a
text that is one single word wider than the available width consumes one
line by itself; and on a single-line text of nonempty, width-fitting words
the prediction equals the number of lines of a greedy word-wrap. -/
theorem C4_line_count (sw : String → ℚ) (width : ℚ) :
    get_text_line_count sw ("") width = 1
    ∧ (∀ (text : String) (lines : List String), text ≠ ("") →
        splitChar '\n' text = lines →
        get_text_line_count sw text width
          = (lines.map (fun l =>
              if l = ("") then 1 else lineCountFold sw width (splitChar ' ' l))).sum)
    ∧ (∀ t : String, t ≠ ("") → splitChar '\n' t = [t] → splitChar ' ' t = [t] →
        sw t > width → get_text_line_count sw t width = 1)
    ∧ (∀ (text w0 : String) (ws : List String), text ≠ ("") →
        splitChar '\n' text = [text] → splitChar ' ' text = w0 :: ws →
        (∀ w ∈ w0 :: ws, w ≠ ("") ∧ sw w ≤ width) →
        get_text_line_count sw text width
          = (greedyWrapLines sw width (w0 :: ws)).length) := by
  refine ⟨rfl, ?_, ?_, ?_⟩
  · intro text lines hne hsplit
    unfold get_text_line_count
    rw [if_neg hne, hsplit]
  · intro t hne hs1 hs2 hbig
    unfold get_text_line_count
    rw [if_neg hne, hs1]
    simp only [List.map_cons, List.map_nil, List.sum_cons, List.sum_nil]
    rw [if_neg hne, hs2]
    unfold lineCountFold
    simp only [List.foldl_cons, List.foldl_nil]
    simp [wordStep, hbig]
  · intro text w0 ws hne hs1 hs2 hall
    have hw0 := hall w0 (List.mem_cons_self w0 ws)
    unfold get_text_line_count
    rw [if_neg hne, hs1]
    simp only [List.map_cons, List.map_nil, List.sum_cons, List.sum_nil]
    rw [if_neg hne, hs2]
    unfold lineCountFold greedyWrapLines
    simp only [List.foldl_cons]
    have hstep : wordStep sw width ("", 1) w0 = (w0, 1) := by
      simp [wordStep, not_lt.mpr hw0.2, hw0.2]
    rw [hstep]
    have hinv := pack_loop_invariant sw width ws [] w0 1 hw0.1 (by simp)
      (fun x hx => hall x (List.mem_cons_of_mem w0 hx))
    rw [hinv.2.1]
    simp [List.length_append]

/-- C4 (witness): with the concrete additive width table, the text
"j k z" at width 10 is predicted at three lines, exactly the greedy wrap. -/
theorem C4_line_count_witness :
    get_text_line_count swEx ("j k z") 10
      = (greedyWrapLines swEx 10 (["j", "k", "z"])).length :=
  (C4_line_count swEx 10).2.2.2 ("j k z") ("j") (["k", "z"])
    (by decide) (by decide) (by decide) (by decide)

/-- The fixed 3-column grid row count (len + 2) / 3 is the ceiling of
len / 3. -/
theorem ceil_div_three (n : Nat) :
    (((n + 2) / 3 : Nat) : Int) = Int.ceil ((n : ℚ) / 3) := by
  have h : 3 * ((n + 2) / 3) + (n + 2) % 3 = n + 2 := Nat.div_add_mod (n + 2) 3
  have hr : (n + 2) % 3 < 3 := Nat.mod_lt _ (by norm_num)
  have hInt : 3 * (((n + 2) / 3 : Nat) : Int) + (((n + 2) % 3 : Nat) : Int)
      = (n : Int) + 2 := by exact_mod_cast h
  have hrInt : (((n + 2) % 3 : Nat) : Int) < 3 := by exact_mod_cast hr
  have hr0 : (0 : Int) ≤ (((n + 2) % 3 : Nat) : Int) := Int.ofNat_nonneg _
  symm
  rw [Int.ceil_eq_iff]
  constructor
  · rw [lt_div_iff₀ (by norm_num : (0 : ℚ) < 3)]
    have hq : ((((n + 2) / 3 : Nat) : Int) - 1) * 3 < (n : Int) := by omega
    exact_mod_cast hq
  · rw [div_le_iff₀ (by norm_num : (0 : ℚ) < 3)]
    have hq : (n : Int) ≤ (((n + 2) / 3 : Nat) : Int) * 3 := by omega
    exact_mod_cast hq

/-- C5: the predicted block height of an item equals
textLines * 5 + ceil(imageCount / 3) * (imageHeight + imageMargin) + 15
with textLines the title and problem line counts plus the status line; and
whenever the current y plus the predicted height exceeds the page break
trigger, the page break is emitted before every drawing step of the item —
the drawing steps themselves never contain a page break. -/
theorem C5_block_height_page_break (sw : String → ℚ) (aw trigger y : ℚ)
    (it : Item Unit) :
    ((blockHeight sw aw it : Int)
        = (get_text_line_count sw (item_title_line it) aw
            + get_text_line_count sw (problema_line it) aw + 1) * 5
          + Int.ceil ((it.imagens.length : ℚ) / 3) * (35 + 5) + 15)
    ∧ (y + (blockHeight sw aw it : ℚ) > trigger →
        itemSteps sw aw trigger y it = DrawStep.pageBreak :: itemDrawSteps it)
    ∧ (¬ y + (blockHeight sw aw it : ℚ) > trigger →
        itemSteps sw aw trigger y it = itemDrawSteps it)
    ∧ DrawStep.pageBreak ∉ itemDrawSteps it := by
  refine ⟨?_, ?_, ?_, ?_⟩
  · have hb : blockHeight sw aw it
        = (get_text_line_count sw (item_title_line it) aw
            + get_text_line_count sw (problema_line it) aw + 1) * 5
          + ((it.imagens.length + 2) / 3) * (35 + 5) + 15 := rfl
    rw [hb, ← ceil_div_three it.imagens.length]
    push_cast
    ring
  · intro h
    unfold itemSteps
    rw [if_pos h]
    rfl
  · intro h
    unfold itemSteps
    rw [if_neg h]
    rfl
  · simp [itemDrawSteps]

/-- C5 (witness): with a zero-width font oracle, an item with four images
predicts a two-row image grid, and from y = 50 against trigger 0 the page
break is emitted ahead of the item's drawing steps. -/
theorem C5_block_height_page_break_witness :
    itemSteps (fun _ => (0 : ℚ)) 100 0 50
        (mkItem (some (PyVal.int 1)) Option.none 4 Option.none Option.none)
      = DrawStep.pageBreak
        :: itemDrawSteps (mkItem (some (PyVal.int 1)) Option.none 4 Option.none Option.none) := by
  apply (C5_block_height_page_break (fun _ => (0 : ℚ)) 100 0 50 _).2.1
  have h0 : (0 : ℚ) ≤ ((blockHeight (fun _ => (0 : ℚ)) 100
      (mkItem (some (PyVal.int 1)) Option.none 4 Option.none Option.none) : Nat) : ℚ) :=
    Nat.cast_nonneg _
  linarith

/-- Soundness of the streaming read loop: a successful read returns the
concatenation of the chunks, and — provided the running total is within
the cap — certifies that the final total is within the cap as well. -/
theorem readChunks_sound (maxBytes : Nat) :
    ∀ (cs : List Bytes) (total : Nat) (buf : Bytes) (d : Bytes),
      readChunks maxBytes total buf cs = some d →
      d = buf ++ cs.flatten
        ∧ (total ≤ maxBytes → total + (cs.map List.length).sum ≤ maxBytes) := by
  intro cs
  induction cs with
  | nil =>
    intro total buf d h
    simp only [readChunks] at h
    cases h
    simp
  | cons c cs ih =>
    intro total buf d h
    simp only [readChunks] at h
    by_cases hc : c = []
    · rw [if_pos hc] at h
      have := ih total buf d h
      subst hc
      simpa using this
    · rw [if_neg hc] at h
      by_cases hcap : total + c.length > maxBytes
      · rw [if_pos hcap] at h
        cases h
      · rw [if_neg hcap] at h
        have := ih (total + c.length) (buf ++ c) d h
        refine ⟨?_, ?_⟩
        · rw [this.1]
          simp
        · intro _
          have h2 := this.2 (by omega)
          simp only [List.map_cons, List.sum_cons]
          omega

/-- C6: the HTTP fetch never returns more than the configured cap — a
streamed body whose total size exceeds the cap yields an absent result,
not a truncated buffer — and any returned bytes are exactly the full body,
within the cap, and validated by the image decoder. -/
theorem C6_byte_cap (allowed : List String) (maxBytes : Nat)
    (decodesAsImage : Bytes → Bool) (hostname : Option String)
    (statusOk : Bool) (chunks : List Bytes) :
    ((chunks.map List.length).sum > maxBytes →
      download_single_url allowed maxBytes decodesAsImage hostname statusOk chunks
        = Option.none)
    ∧ (∀ d : Bytes,
        download_single_url allowed maxBytes decodesAsImage hostname statusOk chunks
          = some d →
        decodesAsImage d = true ∧ d.length ≤ maxBytes ∧ d = chunks.flatten) := by
  unfold download_single_url
  by_cases hh : !hostAllowed allowed hostname
  · rw [if_pos hh]
    exact ⟨fun _ => rfl, fun d hd => by cases hd⟩
  · rw [if_neg hh]
    by_cases hs : !statusOk
    · rw [if_pos hs]
      exact ⟨fun _ => rfl, fun d hd => by cases hd⟩
    · rw [if_neg hs]
      cases hrc : readChunks maxBytes 0 [] chunks with
      | none => exact ⟨fun _ => rfl, fun d hd => by cases hd⟩
      | some data =>
        have hsound := readChunks_sound maxBytes chunks 0 [] data hrc
        have hdata : data = chunks.flatten := by simpa using hsound.1
        have hcap : (chunks.map List.length).sum ≤ maxBytes := by
          have := hsound.2 (Nat.zero_le _)
          omega
        constructor
        · intro hbig
          omega
        · intro d hd
          dsimp only at hd
          by_cases hdec : decodesAsImage data
          · rw [if_pos hdec] at hd
            cases hd
            refine ⟨hdec, ?_, hdata⟩
            rw [hdata, List.length_flatten]
            exact hcap
          · rw [if_neg hdec] at hd
            cases hd

/-- C6 (witness): a six-byte body against a five-byte cap is rejected, and
against a ten-byte cap the full body is returned and is within the cap. -/
theorem C6_byte_cap_witness :
    download_single_url (["storage.googleapis.com"]) 5 (fun _ => true)
        (some ("storage.googleapis.com")) true ([[1, 2, 3], [4, 5, 6]])
      = Option.none
    ∧ ([1, 2, 3, 4, 5, 6] : Bytes).length ≤ 10 :=
  ⟨(C6_byte_cap (["storage.googleapis.com"]) 5 (fun _ => true)
      (some ("storage.googleapis.com")) true ([[1, 2, 3], [4, 5, 6]])).1 (by decide),
   ((C6_byte_cap (["storage.googleapis.com"]) 10 (fun _ => true)
      (some ("storage.googleapis.com")) true ([[1, 2, 3], [4, 5, 6]])).2
      ([1, 2, 3, 4, 5, 6]) (by decide)).2.1⟩

/-- Flattening the chunk decomposition gives back the original list, for a
positive chunk size and enough fuel. -/
theorem chunksOfAux_flatten {α : Type} (n : Nat) (hn : n ≠ 0) :
    ∀ (fuel : Nat) (l : List α), l.length ≤ fuel →
      (chunksOfAux n fuel l).flatten = l := by
  intro fuel
  induction fuel with
  | zero =>
    intro l hl
    cases l with
    | nil => rfl
    | cons x xs => simp at hl
  | succ f ih =>
    intro l hl
    cases l with
    | nil => rfl
    | cons x xs =>
      have hlen : ((x :: xs).drop n).length ≤ f := by
        simp only [List.length_drop, List.length_cons]
        simp only [List.length_cons] at hl
        omega
      show (chunksOfAux n (f + 1) (x :: xs)).flatten = x :: xs
      unfold chunksOfAux
      rw [if_neg hn]
      simp only [List.flatten_cons]
      rw [ih _ hlen, List.take_append_drop]

/-- download_images_batch is the per-index image of the input path list:
the chunked batches concatenate back to an elementwise map. -/
theorem download_images_batch_eq (ex : String → Bool) (dl : String → Option Bytes)
    (paths : List String) :
    download_images_batch ex dl paths = paths.map (fetchPath ex dl) := by
  unfold download_images_batch chunksOf
  rw [← List.map_flatten,
    chunksOfAux_flatten 100 (by norm_num) paths.length paths (le_refl _)]

/-- Every indexed entry in the dict after a setdefault-append comes either
from an entry of the old dict under the same bucket key, or is the newly
appended pair under the given bucket. -/
theorem setdefaultAppend_sub (m : List (String × List (Nat × String)))
    (b : String) (v : Nat × String) :
    ∀ g ∈ setdefaultAppend m b v, ∀ io ∈ g.2,
      (∃ g0 ∈ m, g0.1 = g.1 ∧ io ∈ g0.2) ∨ (g.1 = b ∧ io = v) := by
  intro g hg io hio
  unfold setdefaultAppend at hg
  by_cases hany : m.any (fun g => g.1 == b)
  · rw [if_pos hany] at hg
    rcases List.mem_map.mp hg with ⟨g0, hg0, hmap⟩
    by_cases hb : (g0.1 == b) = true
    · rw [if_pos hb] at hmap
      have hb2 : g0.1 = b := by simpa using hb
      rcases hmap with rfl
      rcases List.mem_append.mp hio with h | h
      · exact Or.inl ⟨g0, hg0, rfl, h⟩
      · have : io = v := by simpa using h
        exact Or.inr ⟨hb2, this⟩
    · rw [if_neg hb] at hmap
      rcases hmap with rfl
      exact Or.inl ⟨g0, hg0, rfl, hio⟩
  · rw [if_neg hany] at hg
    rcases List.mem_append.mp hg with h | h
    · exact Or.inl ⟨g, h, rfl, hio⟩
    · have hgv : g = (b, [v]) := by simpa using h
      rcases hgv with rfl
      have : io = v := by simpa using hio
      exact Or.inr ⟨rfl, this⟩

/-- Existing dict entries survive a setdefault-append: some entry with the
same bucket contains all their indexed pairs. -/
theorem setdefaultAppend_keep (m : List (String × List (Nat × String)))
    (b : String) (v : Nat × String) :
    ∀ g ∈ m, ∃ g2 ∈ setdefaultAppend m b v, g2.1 = g.1 ∧ ∀ io ∈ g.2, io ∈ g2.2 := by
  intro g hg
  unfold setdefaultAppend
  by_cases hany : m.any (fun g => g.1 == b)
  · rw [if_pos hany]
    refine ⟨(fun g => if g.1 == b then (g.1, g.2 ++ [v]) else g) g,
      List.mem_map_of_mem _ hg, ?_, ?_⟩
    · by_cases hb : (g.1 == b) = true <;> simp [hb]
    · intro io hio
      by_cases hb : (g.1 == b) = true <;> simp [hb, hio]
  · rw [if_neg hany]
    exact ⟨g, List.mem_append_left _ hg, rfl, fun io hio => hio⟩

/-- A setdefault-append leaves the appended pair inside some entry under
its bucket key. -/
theorem setdefaultAppend_new (m : List (String × List (Nat × String)))
    (b : String) (v : Nat × String) :
    ∃ g ∈ setdefaultAppend m b v, g.1 = b ∧ v ∈ g.2 := by
  unfold setdefaultAppend
  by_cases hany : m.any (fun g => g.1 == b)
  · rw [if_pos hany]
    rcases List.any_eq_true.mp hany with ⟨g0, hg0, hb⟩
    refine ⟨(fun g => if g.1 == b then (g.1, g.2 ++ [v]) else g) g0,
      List.mem_map_of_mem _ hg0, ?_⟩
    have hb2 : g0.1 = b := by simpa using hb
    simp [hb, hb2]
  · rw [if_neg hany]
    exact ⟨(b, [v]), List.mem_append_right _ (by simp), rfl, by simp⟩

/-- Soundness of the grouping loop: every indexed pair stored under a
bucket satisfies the per-index property of the enumeration. -/
theorem groupAux_sound (Q : Nat → String → String → Prop) :
    ∀ (ts : List (String × String)) (idx : Nat)
      (m : List (String × List (Nat × String))),
      (∀ g ∈ m, ∀ io ∈ g.2, Q io.1 g.1 io.2) →
      (∀ (k : Nat) (t : String × String), ts[k]? = some t → Q (idx + k) t.1 t.2) →
      ∀ g ∈ groupAux idx m ts, ∀ io ∈ g.2, Q io.1 g.1 io.2 := by
  intro ts
  induction ts with
  | nil =>
    intro idx m hm _
    exact hm
  | cons t ts ih =>
    intro idx m hm hts
    show ∀ g ∈ groupAux (idx + 1) (setdefaultAppend m t.1 (idx, t.2)) ts, _
    refine ih (idx + 1) _ ?_ ?_
    · intro g hg io hio
      rcases setdefaultAppend_sub m t.1 (idx, t.2) g hg io hio with
        ⟨g0, hg0, heq, hio0⟩ | ⟨heq, hveq⟩
      · rw [← heq]
        exact hm g0 hg0 io hio0
      · rcases hveq with rfl
        rw [heq]
        have h0 := hts 0 t (by simp)
        simpa using h0
    · intro k u hk
      have h1 := hts (k + 1) u (by simpa using hk)
      have harith : idx + (k + 1) = idx + 1 + k := by omega
      rwa [harith] at h1

/-- Indexed pairs already grouped are preserved by the rest of the loop. -/
theorem groupAux_keep :
    ∀ (ts : List (String × String)) (idx : Nat)
      (m : List (String × List (Nat × String))) (b : String) (io : Nat × String),
      (∃ g ∈ m, g.1 = b ∧ io ∈ g.2) →
      ∃ g ∈ groupAux idx m ts, g.1 = b ∧ io ∈ g.2 := by
  intro ts
  induction ts with
  | nil =>
    intro idx m b io h
    exact h
  | cons t ts ih =>
    intro idx m b io h
    show ∃ g ∈ groupAux (idx + 1) (setdefaultAppend m t.1 (idx, t.2)) ts, _
    apply ih
    rcases h with ⟨g, hg, hb, hio⟩
    rcases setdefaultAppend_keep m t.1 (idx, t.2) g hg with ⟨g2, hg2, heq, hsub⟩
    exact ⟨g2, hg2, by rw [heq, hb], hsub io hio⟩

/-- Completeness of the grouping loop: every enumerated target ends up,
with its index, inside the entry of its bucket. -/
theorem groupAux_complete :
    ∀ (ts : List (String × String)) (idx : Nat)
      (m : List (String × List (Nat × String))) (k : Nat) (t : String × String),
      ts[k]? = some t →
      ∃ g ∈ groupAux idx m ts, g.1 = t.1 ∧ (idx + k, t.2) ∈ g.2 := by
  intro ts
  induction ts with
  | nil =>
    intro idx m k t h
    simp at h
  | cons u ts ih =>
    intro idx m k t h
    cases k with
    | zero =>
      have hut : u = t := by simpa using h
      rcases hut with rfl
      show ∃ g ∈ groupAux (idx + 1) (setdefaultAppend m u.1 (idx, u.2)) ts, _
      rw [Nat.add_zero]
      exact groupAux_keep ts (idx + 1) _ u.1 (idx, u.2)
        (setdefaultAppend_new m u.1 (idx, u.2))
    | succ k =>
      have hk : ts[k]? = some t := by simpa using h
      have h1 := ih (idx + 1) (setdefaultAppend m u.1 (idx, u.2)) k t hk
      have harith : idx + 1 + k = idx + (k + 1) := by omega
      rw [harith] at h1
      exact h1

/-- The nested per-bucket write loops equal one flat write loop over the
flattened (index, bucket, object) triples. -/
theorem gcs_nested_eq (ex : String → String → Bool)
    (dl : String → String → Option Bytes) :
    ∀ (G : List (String × List (Nat × String))) (res : List (Option Bytes)),
      G.foldl (fun r g => g.2.foldl
          (fun r2 io => r2.set io.1 (fetchTarget ex dl (g.1, io.2))) r) res
        = (G.flatMap (fun g => g.2.map (fun io => (io.1, g.1, io.2)))).foldl
            (fun r w => r.set w.1 (fetchTarget ex dl (w.2.1, w.2.2))) res := by
  intro G
  induction G with
  | nil => intro res; rfl
  | cons g Gs ih =>
    intro res
    simp only [List.foldl_cons, List.flatMap_cons, List.foldl_append]
    rw [List.foldl_map]
    exact ih _

/-- Characterization of a sequence of indexed writes whose written value is
determined by the target at that index: slot j holds the mapped target when
some write hits j, and the initial content otherwise. -/
theorem foldl_writes_get (ex : String → String → Bool)
    (dl : String → String → Option Bytes) (targets : List (String × String)) :
    ∀ (ws : List (Nat × String × String)) (res : List (Option Bytes)),
      res.length = targets.length →
      (∀ w ∈ ws, targets[w.1]? = some (w.2.1, w.2.2)) →
      ∀ j : Nat,
        (ws.foldl (fun r w => r.set w.1 (fetchTarget ex dl (w.2.1, w.2.2))) res)[j]?
          = if ws.any (fun w => w.1 == j) then
              (targets.map (fetchTarget ex dl))[j]?
            else res[j]? := by
  intro ws
  induction ws with
  | nil =>
    intro res _ _ j
    simp
  | cons w ws ih =>
    intro res hlen hmem j
    have hw := hmem w (List.mem_cons_self w ws)
    have hwlt : w.1 < targets.length := (List.getElem?_eq_some_iff.mp hw).1
    simp only [List.foldl_cons]
    have hlen2 : (res.set w.1 (fetchTarget ex dl (w.2.1, w.2.2))).length
        = targets.length := by
      rw [List.length_set]
      exact hlen
    have ihres := ih (res.set w.1 (fetchTarget ex dl (w.2.1, w.2.2))) hlen2
      (fun x hx => hmem x (List.mem_cons_of_mem w hx)) j
    rw [ihres]
    by_cases hany : ws.any (fun w => w.1 == j) = true
    · rw [if_pos hany, if_pos (by simp [List.any_cons, hany])]
    · rw [if_neg hany]
      by_cases hj : w.1 = j
      · rcases hj with rfl
        have hjres : w.1 < res.length := by omega
        rw [List.getElem?_set_self hjres, if_pos (by simp), List.getElem?_map, hw]
        rfl
      · rw [List.getElem?_set_ne hj,
          if_neg (by simp [List.any_cons, hany, hj])]

/-- download_gcs_targets_batch is the per-index image of the target list:
grouping by bucket reorders only the writes, and every index is written
exactly with the fetch of its own target. -/
theorem download_gcs_targets_batch_eq (ex : String → String → Bool)
    (dl : String → String → Option Bytes) (targets : List (String × String)) :
    download_gcs_targets_batch ex dl targets = targets.map (fetchTarget ex dl) := by
  unfold download_gcs_targets_batch
  by_cases hemp : targets.isEmpty
  · rw [if_pos hemp]
    have : targets = [] := List.isEmpty_eq_true.mp hemp
    rcases this with rfl
    rfl
  · rw [if_neg hemp]
    apply List.ext_getElem?
    intro j
    unfold groupByBucket
    rw [gcs_nested_eq]
    have hmemW : ∀ w ∈ (groupAux 0 [] targets).flatMap
        (fun g => g.2.map (fun io => (io.1, g.1, io.2))),
        targets[w.1]? = some (w.2.1, w.2.2) := by
      intro w hw
      rcases List.mem_flatMap.mp hw with ⟨g, hg, hwmem⟩
      rcases List.mem_map.mp hwmem with ⟨io, hio, heq⟩
      have hsound := groupAux_sound (fun i b o => targets[i]? = some (b, o))
        targets 0 []
        (by intro g hg2 _ _; simp at hg2)
        (by intro k t hk; simpa [Nat.zero_add] using hk)
        g hg io hio
      rw [← heq]
      exact hsound
    rw [foldl_writes_get ex dl targets _ (List.replicate targets.length Option.none)
      (List.length_replicate _ _) hmemW j]
    by_cases hj : j < targets.length
    · have hjt : targets[j]? = some (targets.get (Fin.mk j hj)) := by simp
      rcases groupAux_complete targets 0 [] j (targets.get (Fin.mk j hj)) hjt with
        ⟨g, hg, hgt, hio⟩
      have hmem2 : ((0 + j : Nat), g.1, (targets.get (Fin.mk j hj)).2)
          ∈ (groupAux 0 [] targets).flatMap
            (fun g => g.2.map (fun io => (io.1, g.1, io.2))) := by
        apply List.mem_flatMap.mpr
        exact ⟨g, hg, List.mem_map_of_mem _ hio⟩
      have hany : ((groupAux 0 [] targets).flatMap
          (fun g => g.2.map (fun io => (io.1, g.1, io.2)))).any
            (fun w => w.1 == j) = true := by
        apply List.any_eq_true.mpr
        exact ⟨_, hmem2, by simp⟩
      rw [if_pos hany]
    · have hanyf : ((groupAux 0 [] targets).flatMap
          (fun g => g.2.map (fun io => (io.1, g.1, io.2)))).any
            (fun w => w.1 == j) ≠ true := by
        intro hA
        rcases List.any_eq_true.mp hA with ⟨w, hwmem, hbeq⟩
        have hwlt : w.1 < targets.length :=
          (List.getElem?_eq_some_iff.mp (hmemW w hwmem)).1
        have : w.1 = j := by simpa using hbeq
        omega
      rw [if_neg hanyf, List.getElem?_replicate, if_neg hj, List.getElem?_map,
        List.getElem?_eq_none (by omega)]
      rfl

/-- C7: each batch fetch operation returns a list of the same length as
its input in which slot i is exactly the fetch of input i — so an absent
or failed entry leaves every other slot unaffected. -/
theorem C7_batch_order (ex : String → Bool) (dl : String → Option Bytes)
    (paths : List String) (ex2 : String → String → Bool)
    (dl2 : String → String → Option Bytes) (targets : List (String × String))
    (dl3 : String → Option Bytes) (urls : List String) :
    ((download_images_batch ex dl paths).length = paths.length
      ∧ ∀ i : Nat, (download_images_batch ex dl paths)[i]?
          = (paths[i]?).map (fetchPath ex dl))
    ∧ ((download_gcs_targets_batch ex2 dl2 targets).length = targets.length
      ∧ ∀ i : Nat, (download_gcs_targets_batch ex2 dl2 targets)[i]?
          = (targets[i]?).map (fetchTarget ex2 dl2))
    ∧ ((download_urls_batch dl3 urls).length = urls.length
      ∧ ∀ i : Nat, (download_urls_batch dl3 urls)[i]? = (urls[i]?).map dl3) := by
  refine ⟨⟨?_, ?_⟩, ⟨?_, ?_⟩, ⟨?_, ?_⟩⟩
  · rw [download_images_batch_eq, List.length_map]
  · intro i
    rw [download_images_batch_eq, List.getElem?_map]
  · rw [download_gcs_targets_batch_eq, List.length_map]
  · intro i
    rw [download_gcs_targets_batch_eq, List.getElem?_map]
  · unfold download_urls_batch
    rw [List.length_map]
  · intro i
    unfold download_urls_batch
    rw [List.getElem?_map]

/-- C8 (counterexample): lengthening the item label "j k z" to "j kX z"
(inserting a character into the middle word so that it exceeds the
available width 10 under the concrete width table) strictly decreases the
predicted block height, from 40 to 35. -/
theorem C8_counterexample :
    blockHeight swEx 10 (mkItem Option.none Option.none 0 (some ("j kX z")) Option.none)
      < blockHeight swEx 10 (mkItem Option.none Option.none 0 (some ("j k z")) Option.none) := by
  decide

/-- One word never decreases the running segment counter. -/
theorem wordStep_count_mono (sw : String → ℚ) (width : ℚ)
    (st : String × Nat) (w : String) : st.2 ≤ (wordStep sw width st w).2 := by
  unfold wordStep
  by_cases h1 : sw w > width
  · rw [if_pos h1]
    by_cases h2 : st.1 = "" <;> simp [h2]
  · rw [if_neg h1]
    by_cases h2 : sw (if st.1 = "" then w else st.1 ++ " " ++ w) ≤ width <;>
      simp [h2]

/-- The word loop's segment counter is monotone along the word list. -/
theorem foldl_wordStep_mono (sw : String → ℚ) (width : ℚ) :
    ∀ (ws : List String) (st : String × Nat),
      st.2 ≤ (ws.foldl (wordStep sw width) st).2 := by
  intro ws
  induction ws with
  | nil => intro st; exact le_refl _
  | cons w ws ih =>
    intro st
    calc st.2 ≤ (wordStep sw width st w).2 := wordStep_count_mono sw width st w
      _ ≤ ((w :: ws).foldl (wordStep sw width) st).2 := ih _

/-- C8 (amended): the predicted block height never decreases when images
are added to an item, and the predicted per-line segment count never
decreases when words are appended to a line; (lengthening an existing word
beyond the available width, however, can decrease the count — see the
counterexample). -/
theorem C8_monotone :
    (∀ (sw : String → ℚ) (aw : ℚ) (it : Item Unit) (extra : List Unit),
      blockHeight sw aw it
        ≤ blockHeight sw aw { it with imagens := it.imagens ++ extra })
    ∧ (∀ (sw : String → ℚ) (width : ℚ) (ws more : List String),
      lineCountFold sw width ws ≤ lineCountFold sw width (ws ++ more)) := by
  constructor
  · intro sw aw it extra
    show (_ + _ + _ : Nat) ≤ _ + _ + _
    have htitle : item_title_line { it with imagens := it.imagens ++ extra }
        = item_title_line it := rfl
    have hprob : problema_line { it with imagens := it.imagens ++ extra }
        = problema_line it := rfl
    have hrows : (it.imagens.length + 2) / 3
        ≤ ((it.imagens ++ extra).length + 2) / 3 := by
      apply Nat.div_le_div_right
      rw [List.length_append]
      omega
    have h40 : (it.imagens.length + 2) / 3 * (35 + 5)
        ≤ ((it.imagens ++ extra).length + 2) / 3 * (35 + 5) :=
      Nat.mul_le_mul_right _ hrows
    rw [htitle, hprob]
    dsimp only
    omega
  · intro sw width ws more
    unfold lineCountFold
    rw [List.foldl_append]
    exact foldl_wordStep_mono sw width more _

/-- C9 (counterexample): for a point annotation with coordinate width 0
the drawn radius is the default 5, not the claimed clamp of 0 into [3, 8],
which is 3. -/
theorem C9_counterexample :
    pointRadius 0 = 5 ∧ max 3 (min 8 (0 : ℚ)) = 3 ∧ (5 : ℚ) ≠ 3 := by
  refine ⟨by decide, by decide, by decide⟩

/-- C9 (amended): a point/dot annotation draws a filled circle centered on
(x, y) whose radius is w clamped to [3, 8] whenever w is nonzero; when w
is zero (or absent, defaulting to 0), Python's `w or 5.0` substitutes 5,
so the radius is 5. -/
theorem C9_point_radius (x y w h : ℚ) (c : Nat × Nat × Nat) :
    (w ≠ 0 → pointRadius w = max 3 (min 8 w))
    ∧ pointRadius 0 = 5
    ∧ drawAnn ("point") x y w h c
        = DrawOp.ellipseFilled (x - pointRadius w) (y - pointRadius w)
            (x + pointRadius w) (y + pointRadius w) c 1
    ∧ drawAnn ("dot") x y w h c
        = DrawOp.ellipseFilled (x - pointRadius w) (y - pointRadius w)
            (x + pointRadius w) (y + pointRadius w) c 1 := by
  refine ⟨?_, by decide, ?_, ?_⟩
  · intro hw
    unfold pointRadius
    rw [if_neg hw]
  · unfold drawAnn
    rw [if_neg (by decide), if_neg (by decide), if_pos (by decide)]
  · unfold drawAnn
    rw [if_neg (by decide), if_neg (by decide), if_pos (by decide)]

/-- C9 (witness): at the nonzero width 2 the radius is the clamp of 2,
namely 3. -/
theorem C9_point_radius_witness :
    pointRadius 2 = max 3 (min 8 (2 : ℚ)) :=
  (C9_point_radius 0 0 2 0 (255, 0, 0)).1 (by norm_num)

/-- C10: the annotation pass is total on byte strings — when decoding
fails it returns the input bytes unchanged (never absent, never an
exception); when decoding succeeds it returns the re-encoded annotated
image, falling back to the input bytes if re-encoding fails; an individual
record whose draw step fails is skipped, leaving the image unchanged, so
the remaining records still apply and the pass still re-encodes. -/
theorem C10_annotation_recovery (Img : Type) (ops : ImgOps Img) (data : Bytes)
    (anns : List Ann) :
    (ops.decode data = Option.none → apply_anns ops data anns = data)
    ∧ (∀ img : Img, ops.decode data = some img →
        (∀ out : Bytes,
          ops.encodeJPEG85 (anns.foldl (applyAnn ops) (ops.toRGB img)) = some out →
          apply_anns ops data anns = out)
        ∧ (ops.encodeJPEG85 (anns.foldl (applyAnn ops) (ops.toRGB img)) = Option.none →
          apply_anns ops data anns = data))
    ∧ (∀ (img : Img) (a : Ann) (op : DrawOp), annOp a = some op →
        ops.draw img op = Option.none → applyAnn ops img a = img)
    ∧ (∀ (pre post : List Ann) (a : Ann), (∀ im : Img, applyAnn ops im a = im) →
        apply_anns ops data (pre ++ a :: post) = apply_anns ops data (pre ++ post)) := by
  refine ⟨?_, ?_, ?_, ?_⟩
  · intro hdec
    unfold apply_anns
    rw [hdec]
  · intro img hdec
    constructor
    · intro out henc
      unfold apply_anns
      rw [hdec]
      dsimp only
      rw [henc]
    · intro henc
      unfold apply_anns
      rw [hdec]
      dsimp only
      rw [henc]
  · intro img a op hop hdraw
    unfold applyAnn
    rw [hop]
    dsimp only
    rw [hdraw]
  · intro pre post a hskip
    unfold apply_anns
    cases hdec : ops.decode data with
    | none => rfl
    | some img =>
      dsimp only
      rw [List.foldl_append, List.foldl_append, List.foldl_cons, hskip]

/-- C10 (witness): with the concrete codec, undecodable bytes pass through
unchanged, and decodable bytes are re-encoded. -/
theorem C10_annotation_recovery_witness :
    apply_anns opsW ([2]) [] = [2] ∧ apply_anns opsW ([1]) [] = [0] :=
  ⟨(C10_annotation_recovery Nat opsW ([2]) []).1 (by decide),
   ((C10_annotation_recovery Nat opsW ([1]) []).2.1 0 (by decide)).1 ([0]) (by decide)⟩
